import Mathlib

/-!
# Verification of the sider transaction engine and typed persistence layer

This file embeds the core of the `sider` library (a Python client giving
collection semantics to Redis values, with an optimistic-locking transaction
protocol) as executable Lean definitions, and proves the specification's
claims about it.

The embedding covers:

* the session / transaction state machine (`sider/session.py`,
  `sider/transaction.py`): watch sets, the commit-phase flag, the retry
  loop, and the cleanup performed on every exit path;
* the scalar codec layer (`sider/types.py`): `encode`/`decode` pairs for the
  built-in bulk types, in particular the RFC 3339 date/datetime codecs;
* the container-level `save_value` operations (`sider/types.py` together
  with the `_raw_update`/`_raw_extend` helpers of the container modules);
* the sorted-set operations `add`, `popitem` and `pop`
  (`sider/sortedset.py`) and the membership tests of `sider/set.py` and
  `sider/sortedset.py`.

Backend commands (WATCH/MULTI/EXEC/RESET, and the per-container Redis
commands) are modelled as explicit traces or as functions on an explicit
store, so that every definition is executable.
-/

namespace Sider

/-- Redis keys.  The source uses Python strings. -/
abbrev Key := String

instance {ε α : Type} [DecidableEq ε] [DecidableEq α] :
    DecidableEq (Except ε α) := fun a b =>
  match a, b with
  | .ok x, .ok y =>
    if h : x = y then .isTrue (by rw [h]) else .isFalse (by simp [h])
  | .error x, .error y =>
    if h : x = y then .isTrue (by rw [h]) else .isFalse (by simp [h])
  | .ok _, .error _ => .isFalse (by simp)
  | .error _, .ok _ => .isFalse (by simp)

/-- The exception taxonomy of `sider/exceptions.py` together with the
backend-raised `redis.client.WatchError` and arbitrary user exceptions
(`other n`). -/
inductive Err where
  | commitError
  | conflictError
  | doubleTransactionError
  | typeError
  | valueError
  | keyError
  | other (n : Nat)
deriving DecidableEq, Repr

/-- Backend commands issued by the transaction machinery, as a trace.
`watch` carries the set of keys actually sent to the backend. -/
inductive Cmd where
  | watch (keys : Finset Key)
  | multi
  | execute
  | reset
deriving DecidableEq

/-- `sider.transaction.Transaction` objects: the mutable set of watched
keys, the frozen initial key set, and the `commit_phase` / `entered`
flags (`Transaction.__init__`). -/
structure Transaction where
  keys : Finset Key
  initial_keys : Finset Key
  commit_phase : Bool
  entered : Bool
deriving DecidableEq

instance : Inhabited Transaction := ⟨⟨∅, ∅, false, false⟩⟩

/-- The session state touched by the transaction machinery: the current
client handle (`session.client`; handles are abstract numbers and
`pipeline()` produces handle `c + 1`), the saved
`context_locals['original_client']`, and the context-local transaction
slot `context_locals['transaction']`. -/
structure SessionState where
  client : Nat
  original_client : Option Nat
  txn : Option Transaction
deriving DecidableEq

/-- A fresh session (`Session.__init__`): basic client handle `0`,
no saved client, no active transaction. -/
def initialSession : SessionState := ⟨0, none, none⟩

/-- `Transaction.watch(keys, initialize)`: with `initialize` the watch set
is replaced; otherwise already-watched keys are removed from the argument
(`keys -= self.keys`), the backend `WATCH` is issued only if keys remain,
and the remainder is unioned into the watch set (`self.keys |= keys`).
Returns the updated transaction and the issued commands. -/
def Transaction.watch (t : Transaction) (ks : Finset Key) (init : Bool) :
    Transaction × List Cmd :=
  if init then
    ({ t with keys := ks }, if ks = ∅ then [] else [Cmd.watch ks])
  else
    let fresh := ks \ t.keys
    ({ t with keys := t.keys ∪ fresh },
     if fresh = ∅ then [] else [Cmd.watch fresh])

/-- `Transaction.begin_commit()`: if already in commit phase, emit a
`TransactionWarning` and return (the `Bool` component records that the
warning was emitted); otherwise set `commit_phase` and issue `MULTI`. -/
def Transaction.begin_commit (t : Transaction) :
    Transaction × Bool × List Cmd :=
  if t.commit_phase then (t, true, [])
  else ({ t with commit_phase := true }, false, [Cmd.multi])

/-- `Session.mark_query(keys)`: a no-op without an active transaction;
raises `CommitError` during commit phase; otherwise watches `keys`. -/
def mark_query (s : SessionState) (ks : Finset Key) :
    Except Err (SessionState × List Cmd) :=
  match s.txn with
  | none => .ok (s, [])
  | some t =>
    if t.commit_phase then .error Err.commitError
    else .ok ({ s with txn := some (t.watch ks false).1 },
              (t.watch ks false).2)

/-- `Session.mark_manipulative(keys)`: a no-op without an active
transaction; otherwise watches `keys` and, when not yet in commit phase,
calls `begin_commit()`. -/
def mark_manipulative (s : SessionState) (ks : Finset Key) :
    SessionState × List Cmd :=
  match s.txn with
  | none => (s, [])
  | some t =>
    if (t.watch ks false).1.commit_phase then
      ({ s with txn := some (t.watch ks false).1 }, (t.watch ks false).2)
    else
      ({ s with txn := some (t.watch ks false).1.begin_commit.1 },
       (t.watch ks false).2 ++ (t.watch ks false).1.begin_commit.2.2)

/-- `Transaction.__enter__` for a fresh `Transaction(session, keys)`:
raises `DoubleTransactionError` when the slot is occupied; otherwise marks
the transaction entered, installs it in the slot, saves the client handle,
swaps in a pipeline, and watches the initial keys with `initialize`. -/
def txnEnter (s : SessionState) (ks : Finset Key) :
    Except Err (SessionState × List Cmd) :=
  match s.txn with
  | some _ => .error Err.doubleTransactionError
  | none =>
    let t1 : Transaction :=
      { keys := ks, initial_keys := ks, commit_phase := false, entered := true }
    .ok ({ client := s.client + 1, original_client := some s.client,
           txn := some (t1.watch t1.initial_keys true).1 },
         (t1.watch t1.initial_keys true).2)

/-- The outcome of `Transaction.__exit__`: the restored session state, the
transaction object with its flags cleared, the issued commands, and the
exception (if any) leaving the `with` block. -/
structure ExitResult where
  state : SessionState
  txnObj : Transaction
  cmds : List Cmd
  err : Option Err
deriving DecidableEq

/-- `Transaction.__exit__(exc_type, exc_value, traceback)`: with no
exception it issues `EXECUTE`; a backend `WatchError` (modelled by the
`conflict` flag) resets the pipeline and raises `ConflictError`; any
in-block exception resets the pipeline and propagates.  The `finally:`
block always clears `commit_phase`, empties the transaction slot, restores
the saved client handle, and clears `entered`. -/
def txnExit (conflict : Bool) (exc : Option Err) (t : Transaction)
    (s : SessionState) : ExitResult :=
  { state := { client := s.original_client.getD s.client,
               original_client := none, txn := none },
    txnObj := { t with commit_phase := false, entered := false },
    cmds := match exc with
            | none => if conflict then [Cmd.execute, Cmd.reset]
                      else [Cmd.execute]
            | some _ => [Cmd.reset],
    err := match exc with
           | none => if conflict then some Err.conflictError else none
           | some e => some e }

/-- The operations a user block can perform against the ambient session:
query-classified operations, manipulative operations (both carrying the
keys they touch, cf. the `query`/`manipulative` decorators), and raising
an exception. -/
inductive BlockOp where
  | query (ks : Finset Key)
  | manip (ks : Finset Key)
  | raiseErr (e : Err)
deriving DecidableEq

/-- Runs a user block, given as the list of session operations it
performs, stopping at the first exception (either raised by the block or
by `mark_query` during commit phase). -/
def runOps : List BlockOp → SessionState →
    SessionState × List Cmd × Option Err
  | [], s => (s, [], none)
  | op :: rest, s =>
    match op with
    | .raiseErr e => (s, [], some e)
    | .query ks =>
      match mark_query s ks with
      | .error e => (s, [], some e)
      | .ok p =>
        ((runOps rest p.1).1, p.2 ++ (runOps rest p.1).2.1,
         (runOps rest p.1).2.2)
    | .manip ks =>
      ((runOps rest (mark_manipulative s ks).1).1,
       (mark_manipulative s ks).2 ++
         (runOps rest (mark_manipulative s ks).1).2.1,
       (runOps rest (mark_manipulative s ks).1).2.2)

/-- The outcome of one attempt `with Transaction(session, keys) as t:
block(trial, t)`. -/
structure AttemptResult where
  state : SessionState
  txnObj : Transaction
  cmds : List Cmd
  err : Option Err
deriving DecidableEq

/-- One attempt of the retry loop: enter, run the block, exit.  `conflict`
says whether the backend reports a lost watch on `EXECUTE`.  An error from
`__enter__` propagates without the block running. -/
def attempt (conflict : Bool) (ops : List BlockOp) (ks : Finset Key)
    (s : SessionState) : Except Err AttemptResult :=
  match txnEnter s ks with
  | .error e => .error e
  | .ok p =>
    let s2 := (runOps ops p.1).1
    let exc := (runOps ops p.1).2.2
    let r := txnExit conflict exc (s2.txn.getD default) s2
    .ok ⟨r.state, r.txnObj, p.2 ++ (runOps ops p.1).2.1 ++ r.cmds, r.err⟩

/-- The observable outcome of `Session.transaction`: the final session
state, the block invocations (trial index paired with the exception the
attempt ended with), the exception propagated to the caller (`none` when
the call returns normally), and the issued backend commands. -/
structure TxRun where
  state : SessionState
  attempts : List (Nat × Option Err)
  raised : Option Err
  cmds : List Cmd
deriving DecidableEq

/-- The retry loop of `Session.transaction` for an idle session: run an
attempt; on `ConflictError` increment the trial and start over; on any
other exception stop and propagate; on success stop.  `fuel` bounds the
number of attempts the model unfolds (`none` = fuel exhausted); the
Python loop itself is unbounded. -/
def txnLoop (conflict : Nat → Bool) (blockOps : Nat → List BlockOp)
    (ks : Finset Key) : Nat → Nat → SessionState → Option TxRun
  | 0, _, _ => none
  | fuel + 1, trial, s =>
    match attempt (conflict trial) (blockOps trial) ks s with
    | .error e => some ⟨s, [], some e, []⟩
    | .ok a =>
      if a.err = some Err.conflictError then
        match txnLoop conflict blockOps ks fuel (trial + 1) a.state with
        | none => none
        | some out =>
          some ⟨out.state, (trial, a.err) :: out.attempts,
                out.raised, a.cmds ++ out.cmds⟩
      else some ⟨a.state, [(trial, a.err)], a.err, a.cmds⟩

/-- `Session.transaction(block, keys, ignore_double)`: with no active
transaction, run the retry loop from trial `0`; with an active transaction
and `ignore_double=False`, raise `DoubleTransactionError` (issuing no
backend command); otherwise let the active transaction watch the extra
keys and run the block inline once as `block(0, None)`. -/
def session_transaction (conflict : Nat → Bool)
    (blockOps : Nat → List BlockOp) (ks : Finset Key)
    (ignore_double : Bool) (fuel : Nat) (s : SessionState) : Option TxRun :=
  match s.txn with
  | none => txnLoop conflict blockOps ks fuel 0 s
  | some t =>
    if ignore_double = false then
      some ⟨s, [], some Err.doubleTransactionError, []⟩
    else
      let s1 : SessionState := { s with txn := some (t.watch ks false).1 }
      some ⟨(runOps (blockOps 0) s1).1, [(0, (runOps (blockOps 0) s1).2.2)],
            (runOps (blockOps 0) s1).2.2,
            (t.watch ks false).2 ++ (runOps (blockOps 0) s1).2.1⟩

/-! ## The scalar codec layer (`sider/types.py`)

Redis bulks are byte strings; all the formats below are ASCII, so a bulk
is modelled as a `List Char`. -/

abbrev Bulk := List Char

/-- Decimal digit characters, as produced by Python's number
formatting. -/
def digitChar : Nat → Char
  | 0 => '0' | 1 => '1' | 2 => '2' | 3 => '3' | 4 => '4'
  | 5 => '5' | 6 => '6' | 7 => '7' | 8 => '8' | _ => '9'

/-- The decimal digits of `n`, most significant first, with explicit fuel
(`n` itself suffices) so that the definition is structural. -/
def natDigitsAux : Nat → Nat → List Char
  | 0, _ => []
  | fuel + 1, n =>
    if n = 0 then []
    else natDigitsAux fuel (n / 10) ++ [digitChar (n % 10)]

/-- `str(n)` for a natural number. -/
def natToChars (n : Nat) : List Char :=
  if n = 0 then ['0'] else natDigitsAux n n

/-- Zero-padded fixed-width decimal, as in `strftime`/`isoformat`
fields. -/
def padNum (width n : Nat) : List Char :=
  List.replicate (width - (natToChars n).length) '0' ++ natToChars n

/-- The numeric value of a digit string (the core of `int()` on a string
of digits). -/
def digitsToNat (l : List Char) : Nat :=
  l.foldl (fun a c => a * 10 + (c.toNat - 48)) 0

/-- `int()` on a nonempty all-digit string; anything else is a
`ValueError`. -/
def parseNatChars (l : List Char) : Except Err Nat :=
  if l ≠ [] ∧ l.all Char.isDigit then .ok (digitsToNat l)
  else .error Err.valueError

/-- `int()` on a decimal string with an optional sign. -/
def parseIntChars : List Char → Except Err Int
  | [] => .error Err.valueError
  | c :: rest =>
    if c = '-' then (parseNatChars rest).map (fun n => -(Int.ofNat n))
    else if c = '+' then (parseNatChars rest).map Int.ofNat
    else (parseNatChars (c :: rest)).map Int.ofNat

/-- `str(i)` for a Python integer. -/
def intToChars (i : Int) : List Char :=
  if i < 0 then '-' :: natToChars (-i).toNat else natToChars i.toNat

/-- `Integer.encode`: `str(value)` (the `isinstance(value,
numbers.Integral)` check is the typed domain `Int`). -/
def Integer.encode (i : Int) : Bulk := intToChars i

/-- `Integer.decode`: `int(bulk)`. -/
def Integer.decode (bulk : Bulk) : Except Err Int := parseIntChars bulk

/-- `Boolean.encode`: `'1'` for truthy, `'0'` for falsy. -/
def Boolean.encode (b : Bool) : Bulk :=
  Integer.encode (if b then 1 else 0)

/-- `Boolean.decode`: `bool(int(bulk))`. -/
def Boolean.decode (bulk : Bulk) : Except Err Bool :=
  match Integer.decode bulk with
  | .ok n => .ok (n ≠ 0)
  | .error e => .error e

/-- `datetime.datetime` values: `tzoffset` is the `tzinfo` as a UTC
offset in minutes (`none` = naive).  Constructor range validation of the
`datetime` module is not re-modelled; the round-trip claims only evaluate
in-range values. -/
structure PyDateTime where
  year : Nat
  month : Nat
  day : Nat
  hour : Nat
  minute : Nat
  second : Nat
  microsecond : Nat
  tzoffset : Option Int
deriving DecidableEq

/-- `datetime.time` values, with `tzinfo` as for `PyDateTime`. -/
structure PyTime where
  hour : Nat
  minute : Nat
  second : Nat
  microsecond : Nat
  tzoffset : Option Int
deriving DecidableEq

/-- `datetime.date` values. -/
structure PyDate where
  year : Nat
  month : Nat
  day : Nat
deriving DecidableEq

/-- `time.isoformat()` for a naive time: `HH:MM:SS`, with the
`.ffffff` fraction present exactly when `microsecond` is nonzero. -/
def isoformatTime (v : PyTime) : List Char :=
  padNum 2 v.hour ++ [':'] ++ padNum 2 v.minute ++ [':'] ++
    padNum 2 v.second ++
    (if v.microsecond = 0 then [] else '.' :: padNum 6 v.microsecond)

/-- `datetime.isoformat()` for a naive datetime (separator `'T'`). -/
def isoformatDateTime (v : PyDateTime) : List Char :=
  padNum 4 v.year ++ ['-'] ++ padNum 2 v.month ++ ['-'] ++
    padNum 2 v.day ++ ['T'] ++
    isoformatTime ⟨v.hour, v.minute, v.second, v.microsecond, none⟩

/-- `Date.encode`: `value.strftime('%Y-%m-%d')`. -/
def Date.encode (v : PyDate) : Bulk :=
  padNum 4 v.year ++ ['-'] ++ padNum 2 v.month ++ ['-'] ++ padNum 2 v.day

/-- `DateTime.encode`: drop `tzinfo`, then `isoformat()`. -/
def DateTime.encode (v : PyDateTime) : Bulk :=
  isoformatDateTime { v with tzoffset := none }

/-- `Time.encode`: drop `tzinfo`, then `isoformat()`. -/
def Time.encode (v : PyTime) : Bulk :=
  isoformatTime { v with tzoffset := none }

/-- Matches `k` decimal digits (`\d{k}`), returning them and the rest. -/
def takeDigits (k : Nat) (l : List Char) : Option (List Char × List Char) :=
  if (l.take k).length = k ∧ (l.take k).all Char.isDigit then
    some (l.take k, l.drop k)
  else none

/-- Matches a literal character. -/
def expectChar (c : Char) : List Char → Option (List Char)
  | x :: rest => if x = c then some rest else none
  | [] => none

/-- The optional fraction group `(?:\.(?P<microsecond>\d{6}))?`: its
captured value (if it matched) and the rest of the input. -/
def matchMicro (l : List Char) : Option Nat × List Char :=
  match l with
  | '.' :: rest =>
    match takeDigits 6 rest with
    | some p => (some (digitsToNat p.1), p.2)
    | none => (none, l)
  | _ => (none, l)

/-- The optional zone group
`(?P<tz>Z|[+-]\d\d:\d\d)?` anchored by `$`: `none` for no match at all,
otherwise the parsed offset (in minutes; `none` inside = the whole input
failed to match). -/
def matchTzEnd (l : List Char) : Option (Option Int) :=
  match l with
  | [] => some none
  | ['Z'] => some (some 0)
  | c :: rest =>
    if c = '+' ∨ c = '-' then
      match takeDigits 2 rest with
      | none => none
      | some p =>
        match expectChar ':' p.2 with
        | none => none
        | some r2 =>
          match takeDigits 2 r2 with
          | none => none
          | some p2 =>
            if p2.2 = [] then
              let mins : Int := digitsToNat p.1 * 60 + digitsToNat p2.1
              some (some (if c = '+' then mins else -mins))
            else none
    else none

/-- The `DATETIME_PATTERN` regular expression as a parser: on success
returns the captured groups
`(year, month, day, hour, minute, second, microsecond?, tz?)`. -/
def matchDateTimePattern (l : List Char) :
    Option (Nat × Nat × Nat × Nat × Nat × Nat × Option Nat × Option Int) :=
  match takeDigits 4 l with
  | none => none
  | some py =>
  match expectChar '-' py.2 with
  | none => none
  | some r1 =>
  match takeDigits 2 r1 with
  | none => none
  | some pmo =>
  match expectChar '-' pmo.2 with
  | none => none
  | some r2 =>
  match takeDigits 2 r2 with
  | none => none
  | some pd =>
  match expectChar 'T' pd.2 with
  | none => none
  | some r3 =>
  match takeDigits 2 r3 with
  | none => none
  | some ph =>
  match expectChar ':' ph.2 with
  | none => none
  | some r4 =>
  match takeDigits 2 r4 with
  | none => none
  | some pmi =>
  match expectChar ':' pmi.2 with
  | none => none
  | some r5 =>
  match takeDigits 2 r5 with
  | none => none
  | some ps =>
  match matchTzEnd (matchMicro ps.2).2 with
  | none => none
  | some tz =>
    some (digitsToNat py.1, digitsToNat pmo.1, digitsToNat pd.1,
          digitsToNat ph.1, digitsToNat pmi.1, digitsToNat ps.1,
          (matchMicro ps.2).1, tz)

/-- `DateTime.parse_datetime`: no match is a `ValueError`; on a match the
source does `microsecond = int(match.group('microsecond'))`, which is
`int(None)` — a `TypeError` — whenever the optional fraction group did
not participate in the match. -/
def DateTime.parse_datetime (bulk : Bulk) : Except Err PyDateTime :=
  match matchDateTimePattern bulk with
  | none => .error Err.valueError
  | some g =>
    match g.2.2.2.2.2.2.1 with
    | none => .error Err.typeError
    | some us =>
      .ok ⟨g.1, g.2.1, g.2.2.1, g.2.2.2.1, g.2.2.2.2.1, g.2.2.2.2.2.1,
           us, g.2.2.2.2.2.2.2⟩

/-- `DateTime.decode`: parse, then drop any `tzinfo`. -/
def DateTime.decode (bulk : Bulk) : Except Err PyDateTime :=
  match DateTime.parse_datetime bulk with
  | .error e => .error e
  | .ok parsed =>
    if parsed.tzoffset.isSome then .ok { parsed with tzoffset := none }
    else .ok parsed

/-- The `TIME_PATTERN` regular expression as a parser. -/
def matchTimePattern (l : List Char) :
    Option (Nat × Nat × Nat × Option Nat × Option Int) :=
  match takeDigits 2 l with
  | none => none
  | some ph =>
  match expectChar ':' ph.2 with
  | none => none
  | some r1 =>
  match takeDigits 2 r1 with
  | none => none
  | some pmi =>
  match expectChar ':' pmi.2 with
  | none => none
  | some r2 =>
  match takeDigits 2 r2 with
  | none => none
  | some ps =>
  match matchTzEnd (matchMicro ps.2).2 with
  | none => none
  | some tz =>
    some (digitsToNat ph.1, digitsToNat pmi.1, digitsToNat ps.1,
          (matchMicro ps.2).1, tz)

/-- `Time.parse_time(bulk, drop_tzinfo)`: unlike the datetime parser it
guards the missing fraction (`int(microsecond) if microsecond else 0`). -/
def Time.parse_time (bulk : Bulk) (drop_tzinfo : Bool) :
    Except Err PyTime :=
  match matchTimePattern bulk with
  | none => .error Err.valueError
  | some g =>
    .ok ⟨g.1, g.2.1, g.2.2.1, (g.2.2.2.1).getD 0,
         if drop_tzinfo then none else g.2.2.2.2⟩

/-- `Time.decode`: `parse_time(bulk, drop_tzinfo=True)`. -/
def Time.decode (bulk : Bulk) : Except Err PyTime :=
  Time.parse_time bulk true

/-- The `DATE_PATTERN` regular expression as a parser. -/
def matchDatePattern (l : List Char) : Option (Nat × Nat × Nat) :=
  match takeDigits 4 l with
  | none => none
  | some py =>
  match expectChar '-' py.2 with
  | none => none
  | some r1 =>
  match takeDigits 2 r1 with
  | none => none
  | some pmo =>
  match expectChar '-' pmo.2 with
  | none => none
  | some r2 =>
  match takeDigits 2 r2 with
  | none => none
  | some pd =>
    if pd.2 = [] then
      some (digitsToNat py.1, digitsToNat pmo.1, digitsToNat pd.1)
    else none

/-- `Date.decode`. -/
def Date.decode (bulk : Bulk) : Except Err PyDate :=
  match matchDatePattern bulk with
  | none => .error Err.valueError
  | some g => .ok ⟨g.1, g.2.1, g.2.2⟩

/-! ## Container-level `save_value` (`sider/types.py` + `_raw_update` /
`_raw_extend` helpers)

Stores are explicit functions from keys to container contents; an absent
key holds the empty container.  The `batched` flag is
`session.server_version_info >= (2, 4, 0)`: whether variadic commands
are available or must be emulated by a loop of singular commands. -/

abbrev HStore := Key → List (Bulk × Bulk)
abbrev LStore := Key → List Bulk
abbrev SStore := Key → List Bulk
abbrev ZStore := Key → List (Bulk × Int)

/-- Redis `HSET` of a single field. -/
def hset (h : List (Bulk × Bulk)) (f v : Bulk) : List (Bulk × Bulk) :=
  if h.any (fun p => p.1 = f) then
    h.map (fun p => if p.1 = f then (f, v) else p)
  else h ++ [(f, v)]

/-- `Hash._raw_update`: the encoded items are written with `HMSET`
commands (`utils.chunk` splits them into chunks of 100 pairs; the chunked
sequence of `HMSET`s sets the same fields in the same order, so it is
modelled as one fold). -/
def hash_raw_update (eK : α → Bulk) (eV : β → Bulk)
    (h : List (Bulk × Bulk)) (value : List (α × β)) : List (Bulk × Bulk) :=
  value.foldl (fun acc p => hset acc (eK p.1) (eV p.2)) h

/-- `Hash.save_value`: a nonempty mapping is saved as `DEL` followed by
`_raw_update` in one pipeline; an empty mapping is just `DEL`. -/
def hashSaveValue (eK : α → Bulk) (eV : β → Bulk) (st : HStore)
    (key : Key) (value : List (α × β)) : HStore :=
  if value.isEmpty then Function.update st key []
  else Function.update st key (hash_raw_update eK eV [] value)

/-- `List._raw_extend`: one variadic `RPUSH` when batching is available,
otherwise one `RPUSH` per element. -/
def list_raw_extend (batched : Bool) (enc : α → Bulk)
    (l : List Bulk) (value : List α) : List Bulk :=
  if batched then l ++ value.map enc
  else value.foldl (fun acc v => acc ++ [enc v]) l

/-- `List.save_value`: `DEL` followed by `_raw_extend` in one
pipeline.  (The arity of the underlying wire command for an empty
sequence is a backend detail outside the model.) -/
def listSaveValue (batched : Bool) (enc : α → Bulk) (st : LStore)
    (key : Key) (value : List α) : LStore :=
  Function.update st key (list_raw_extend batched enc [] value)

/-- Redis `SADD` of a single member. -/
def sadd1 (s : List Bulk) (m : Bulk) : List Bulk :=
  if m ∈ s then s else s ++ [m]

/-- `Set._raw_update`: one variadic `SADD` when batching is available,
otherwise one `SADD` per member. -/
def set_raw_update (batched : Bool) (enc : α → Bulk)
    (s : List Bulk) (value : List α) : List Bulk :=
  if batched then (value.map enc).foldl sadd1 s
  else (value.map enc).foldl sadd1 s

/-- `Set.save_value`: `DEL` followed by `_raw_update` in one pipeline. -/
def setSaveValue (batched : Bool) (enc : α → Bulk) (st : SStore)
    (key : Key) (value : List α) : SStore :=
  Function.update st key (set_raw_update batched enc [] value)

/-- Redis `ZADD` of a single member: sets the member's score. -/
def zaddOne (z : List (Bulk × Int)) (m : Bulk) (sc : Int) :
    List (Bulk × Int) :=
  if z.any (fun p => p.1 = m) then
    z.map (fun p => if p.1 = m then (m, sc) else p)
  else z ++ [(m, sc)]

/-- `SortedSet.save_value` (mapping form): inside a transaction block the
object is cleared (`DEL`) and the encoded member/score pairs are written
— one `ZADD` per pair before Redis 2.4.0, a single variadic `ZADD`
afterwards; both set the same scores in the same order. -/
def sortedSetSaveValue (batched : Bool) (enc : α → Bulk) (st : ZStore)
    (key : Key) (value : List (α × Int)) : ZStore :=
  if batched then
    Function.update st key
      ((value.map fun p => (enc p.1, p.2)).foldl
        (fun z p => zaddOne z p.1 p.2) [])
  else
    Function.update st key
      ((value.map fun p => (enc p.1, p.2)).foldl
        (fun z p => zaddOne z p.1 p.2) [])

/-! ## Sorted-set operations (`sider/sortedset.py`) -/

/-- Redis `ZSCORE`. -/
def zscore (z : List (Bulk × Int)) (m : Bulk) : Option Int :=
  (z.find? fun p => p.1 = m).map Prod.snd

/-- Redis `ZINCRBY`: adds to the member's score, inserting it at the
given amount when absent. -/
def zincrby (z : List (Bulk × Int)) (m : Bulk) (amount : Int) :
    List (Bulk × Int) :=
  if z.any (fun p => p.1 = m) then
    z.map (fun p => if p.1 = m then (p.1, p.2 + amount) else p)
  else z ++ [(m, amount)]

/-- Redis `ZREM`. -/
def zrem (z : List (Bulk × Int)) (m : Bulk) : List (Bulk × Int) :=
  z.filter fun p => ¬ p.1 = m

/-- `ZRANGE key 0 0 WITHSCORES`: the lowest-scoring entry (score order;
Redis breaks score ties lexicographically, which no evaluated scenario
exercises). -/
def zrangeHead (z : List (Bulk × Int)) : Option (Bulk × Int) :=
  z.foldl (fun acc p =>
    match acc with
    | none => some p
    | some q => if p.2 < q.2 then some p else some q) none

/-- `SortedSet.add(member, score=1)`: `ZINCRBY`. -/
def sortedset_add (z : List (Bulk × Int)) (m : Bulk) (score : Int) :
    List (Bulk × Int) :=
  zincrby z m score

/-- `SortedSet.popitem(desc=False, score=1, remove=0)` restricted to
ascending order: reads the lowest entry; an empty set is a `KeyError`;
the entry is removed when its decremented score falls to the `remove`
threshold and merely decremented (`ZINCRBY -score`) otherwise.  Returns
the popped pair (with its pre-operation score) and the new set. -/
def sortedset_popitem (score : Int) (remove : Option Int)
    (z : List (Bulk × Int)) : Except Err ((Bulk × Int) × List (Bulk × Int)) :=
  match zrangeHead z with
  | none => .error Err.keyError
  | some q =>
    if (match remove with
        | none => true
        | some r => decide (q.2 - score ≤ r)) then
      .ok (q, zrem z q.1)
    else
      .ok (q, zincrby z q.1 (-score))

/-- `SortedSet.pop()` with no arguments: `popitem(score=1, remove=0)`,
returning only the member. -/
def sortedset_pop (z : List (Bulk × Int)) :
    Except Err (Bulk × List (Bulk × Int)) :=
  match sortedset_popitem 1 (some 0) z with
  | .error e => .error e
  | .ok p => .ok (p.1.1, p.2)

/-! ## Membership tests (`sider/set.py`, `sider/sortedset.py`) -/

/-- A fragment of the Python value universe, for codecs whose `encode`
can reject a value with `TypeError`. -/
inductive PyVal where
  | bytes (b : Bulk)
  | int (i : Int)
  | pynone
deriving DecidableEq

/-- `ByteString.encode` over dynamically typed input: byte strings pass
through; anything else is a `TypeError`. -/
def ByteString.encode : PyVal → Except Err Bulk
  | .bytes b => .ok b
  | .int _ => .error Err.typeError
  | .pynone => .error Err.typeError

/-- `Set.__contains__`: encode the member, turning a `TypeError` into
`False`; otherwise `SISMEMBER`. -/
def set_contains (enc : α → Except Err Bulk) (s : List Bulk) (member : α) :
    Except Err Bool :=
  match enc member with
  | .error Err.typeError => .ok false
  | .error e => .error e
  | .ok data => .ok (decide (data ∈ s))

/-- `SortedSet.__contains__`: encode the member, turning a `TypeError`
into `False`; otherwise `ZSCORE ... is not None`. -/
def sortedset_contains (enc : α → Except Err Bulk)
    (z : List (Bulk × Int)) (member : α) : Except Err Bool :=
  match enc member with
  | .error Err.typeError => .ok false
  | .error e => .error e
  | .ok data => .ok (decide (zscore z data ≠ none))

/-! ### Basic lemmas about `Transaction.watch` -/

theorem Transaction.watch_keys (t : Transaction) (ks : Finset Key) :
    (t.watch ks false).1.keys = t.keys ∪ ks := by
  simp [Transaction.watch, Finset.union_sdiff_self_eq_union]

theorem Transaction.watch_commit_phase (t : Transaction) (ks : Finset Key) :
    (t.watch ks false).1.commit_phase = t.commit_phase := rfl

/-! ### Frame lemmas: the session hooks touch only the transaction slot -/

theorem mark_query_frame {s s1 : SessionState} {ks : Finset Key}
    {c1 : List Cmd} (h : mark_query s ks = .ok (s1, c1)) :
    s1.client = s.client ∧ s1.original_client = s.original_client ∧
    s1.txn.isSome = s.txn.isSome := by
  cases ht : s.txn with
  | none =>
    simp only [mark_query, ht, Except.ok.injEq, Prod.mk.injEq] at h
    obtain ⟨h1, -⟩ := h
    subst h1
    exact ⟨rfl, rfl, by rw [ht]⟩
  | some t =>
    simp only [mark_query, ht] at h
    by_cases hc : t.commit_phase <;> simp only [hc] at h
    · simp at h
    · simp only [Bool.false_eq_true, if_false, Except.ok.injEq,
        Prod.mk.injEq] at h
      obtain ⟨h1, -⟩ := h
      subst h1
      exact ⟨rfl, rfl, rfl⟩

theorem mark_manipulative_frame (s : SessionState) (ks : Finset Key) :
    (mark_manipulative s ks).1.client = s.client ∧
    (mark_manipulative s ks).1.original_client = s.original_client ∧
    (mark_manipulative s ks).1.txn.isSome = s.txn.isSome := by
  cases ht : s.txn with
  | none => simp [mark_manipulative, ht]
  | some t =>
    simp only [mark_manipulative, ht]
    split <;> simp [ht]

theorem runOps_frame : ∀ (ops : List BlockOp) (s : SessionState),
    (runOps ops s).1.client = s.client ∧
    (runOps ops s).1.original_client = s.original_client ∧
    (runOps ops s).1.txn.isSome = s.txn.isSome
  | [], _ => ⟨rfl, rfl, rfl⟩
  | op :: rest, s => by
    cases op with
    | raiseErr e => exact ⟨rfl, rfl, rfl⟩
    | query ks =>
      simp only [runOps]
      cases hq : mark_query s ks with
      | error e => exact ⟨rfl, rfl, rfl⟩
      | ok p =>
        obtain ⟨s1, c1⟩ := p
        obtain ⟨f1, f2, f3⟩ := mark_query_frame hq
        obtain ⟨g1, g2, g3⟩ := runOps_frame rest s1
        exact ⟨g1.trans f1, g2.trans f2, g3.trans f3⟩
    | manip ks =>
      simp only [runOps]
      obtain ⟨f1, f2, f3⟩ := mark_manipulative_frame s ks
      obtain ⟨g1, g2, g3⟩ := runOps_frame rest (mark_manipulative s ks).1
      exact ⟨g1.trans f1, g2.trans f2, g3.trans f3⟩

theorem runOps_frame_client (ops : List BlockOp) (s : SessionState) :
    (runOps ops s).1.client = s.client := (runOps_frame ops s).1

theorem runOps_frame_original (ops : List BlockOp) (s : SessionState) :
    (runOps ops s).1.original_client = s.original_client :=
  (runOps_frame ops s).2.1

/-! ### The watch set never shrinks while the block runs -/

theorem mark_query_keys_mono {s s1 : SessionState} {ks : Finset Key}
    {c1 : List Cmd} {t : Transaction} (ht : s.txn = some t)
    (h : mark_query s ks = .ok (s1, c1)) :
    ∃ t1, s1.txn = some t1 ∧ t.keys ⊆ t1.keys := by
  simp only [mark_query, ht] at h
  by_cases hc : t.commit_phase <;> simp only [hc] at h
  · simp at h
  · simp only [Bool.false_eq_true, if_false, Except.ok.injEq,
      Prod.mk.injEq] at h
    obtain ⟨h1, -⟩ := h
    subst h1
    exact ⟨_, rfl, by
      rw [Transaction.watch_keys]; exact Finset.subset_union_left⟩

theorem Transaction.begin_commit_keys (t : Transaction) :
    t.begin_commit.1.keys = t.keys := by
  unfold Transaction.begin_commit
  split <;> rfl

theorem mark_manipulative_keys_mono {s : SessionState} {ks : Finset Key}
    {t : Transaction} (ht : s.txn = some t) :
    ∃ t1, (mark_manipulative s ks).1.txn = some t1 ∧ t.keys ⊆ t1.keys := by
  have hsub : t.keys ⊆ (t.watch ks false).1.keys := by
    rw [Transaction.watch_keys]; exact Finset.subset_union_left
  simp only [mark_manipulative, ht]
  split
  · exact ⟨_, rfl, hsub⟩
  · exact ⟨_, rfl, by rw [Transaction.begin_commit_keys]; exact hsub⟩

theorem runOps_keys_mono : ∀ (ops : List BlockOp) (s : SessionState)
    (t : Transaction), s.txn = some t →
    ∃ t2, (runOps ops s).1.txn = some t2 ∧ t.keys ⊆ t2.keys
  | [], _, t, ht => ⟨t, ht, Finset.Subset.refl _⟩
  | op :: rest, s, t, ht => by
    cases op with
    | raiseErr e => exact ⟨t, ht, Finset.Subset.refl _⟩
    | query ks =>
      simp only [runOps]
      cases hq : mark_query s ks with
      | error e => exact ⟨t, ht, Finset.Subset.refl _⟩
      | ok p =>
        obtain ⟨s1, c1⟩ := p
        obtain ⟨t1, ht1, hsub1⟩ := mark_query_keys_mono ht hq
        obtain ⟨t2, ht2, hsub2⟩ := runOps_keys_mono rest s1 t1 ht1
        exact ⟨t2, ht2, hsub1.trans hsub2⟩
    | manip ks =>
      simp only [runOps]
      obtain ⟨t1, ht1, hsub1⟩ := mark_manipulative_keys_mono ht
      obtain ⟨t2, ht2, hsub2⟩ :=
        runOps_keys_mono rest (mark_manipulative s ks).1 t1 ht1
      exact ⟨t2, ht2, hsub1.trans hsub2⟩

/-! ### The shape of one attempt -/

/-- On an idle session an attempt always enters successfully, and
`__exit__` always restores the saved client handle, clears the
transaction slot and resets the transaction's flags, whatever the block
did and however the attempt resolved. -/
theorem attempt_ok_shape (conflict : Bool) (ops : List BlockOp)
    (ks : Finset Key) (s : SessionState) (h : s.txn = none) :
    ∃ a, attempt conflict ops ks s = .ok a ∧
      a.state = { client := s.client, original_client := none, txn := none } ∧
      a.txnObj.commit_phase = false ∧ a.txnObj.entered = false := by
  simp only [attempt, txnEnter, h]
  refine ⟨_, rfl, ?_, rfl, rfl⟩
  simp only [txnExit, runOps_frame_original]
  rfl

/-- An attempt with an empty block over no keys: the backend sees
`EXECUTE` (plus a `reset` on conflict) and the attempt resolves with a
conflict exactly when the backend reports one. -/
theorem attempt_nil (c : Bool) :
    attempt c [] ∅ initialSession = .ok ⟨initialSession,
      ⟨∅, ∅, false, false⟩,
      if c then [Cmd.execute, Cmd.reset] else [Cmd.execute],
      if c then some Err.conflictError else none⟩ := by
  cases c <;> rfl

theorem getLast?_cons_ne_nil {α : Type} (a : α) {l : List α} (h : l ≠ []) :
    (a :: l).getLast? = l.getLast? := by
  cases l with
  | nil => exact absurd rfl h
  | cons b m => simp [List.getLast?_cons_cons]

/-- Structure of every terminating run of the retry loop: the block runs
at consecutive trial indices, every attempt but the last ends in a
conflict, the last attempt's resolution is what the loop reports, and a
conflict is never reported to the caller. -/
theorem txnLoop_shape (conflict : Nat → Bool) (blockOps : Nat → List BlockOp)
    (ks : Finset Key) :
    ∀ (fuel trial : Nat) (s : SessionState) (out : TxRun), s.txn = none →
      txnLoop conflict blockOps ks fuel trial s = some out →
      out.attempts.map Prod.fst = List.range' trial out.attempts.length ∧
      out.raised ≠ some Err.conflictError ∧
      (∀ p ∈ out.attempts.dropLast, p.2 = some Err.conflictError) ∧
      (∃ q, out.attempts.getLast? = some q ∧ q.2 = out.raised)
  | 0, trial, s, out, _, hl => by simp [txnLoop] at hl
  | fuel + 1, trial, s, out, h, hl => by
    obtain ⟨a, ha, hstate, -, -⟩ :=
      attempt_ok_shape (conflict trial) (blockOps trial) ks s h
    simp only [txnLoop, ha] at hl
    by_cases hconf : a.err = some Err.conflictError
    · rw [if_pos hconf] at hl
      cases hrec : txnLoop conflict blockOps ks fuel (trial + 1) a.state with
      | none => rw [hrec] at hl; simp at hl
      | some out2 =>
        rw [hrec] at hl
        simp only [Option.some.injEq] at hl
        subst hl
        have hstate2 : a.state.txn = none := by rw [hstate]
        obtain ⟨ih1, ih2, ih3, q, hq, hq2⟩ :=
          txnLoop_shape conflict blockOps ks fuel (trial + 1) a.state out2
            hstate2 hrec
        have hne : out2.attempts ≠ [] := by
          intro hnil
          rw [hnil] at hq
          simp at hq
        refine ⟨?_, ih2, ?_, ?_⟩
        · simp only [List.map_cons, List.length_cons]
          rw [List.range'_succ, ih1]
        · intro p hp
          rw [show ((trial, a.err) :: out2.attempts).dropLast
                = (trial, a.err) :: out2.attempts.dropLast from
              List.dropLast_cons_of_ne_nil hne] at hp
          rcases List.mem_cons.mp hp with hp | hp
          · rw [hp]
            exact hconf
          · exact ih3 p hp
        · exact ⟨q, by rw [getLast?_cons_ne_nil _ hne]; exact hq, hq2⟩
    · rw [if_neg hconf] at hl
      simp only [Option.some.injEq] at hl
      subst hl
      exact ⟨by simp [List.range'_succ], hconf, by simp,
             ⟨(trial, a.err), rfl, rfl⟩⟩

/-- An attempt that does not conflict ends the loop with a single
attempt record. -/
theorem txnLoop_base {c : Nat → Bool} {trial : Nat} (fuel : Nat)
    (hc : c trial = false) :
    txnLoop c (fun _ => []) ∅ (fuel + 1) trial initialSession =
      some ⟨initialSession, [(trial, none)], none, [Cmd.execute]⟩ := by
  simp only [txnLoop, hc, attempt_nil false]
  simp

/-- A conflicting attempt prepends its record and retries at the next
trial index. -/
theorem txnLoop_step {c : Nat → Bool} {trial fuel : Nat} {out : TxRun}
    (hc : c trial = true)
    (hrec : txnLoop c (fun _ => []) ∅ fuel (trial + 1) initialSession =
      some out) :
    txnLoop c (fun _ => []) ∅ (fuel + 1) trial initialSession =
      some ⟨out.state, (trial, some Err.conflictError) :: out.attempts,
            out.raised, [Cmd.execute, Cmd.reset] ++ out.cmds⟩ := by
  simp only [txnLoop, hc, attempt_nil true]
  simp [hrec]

/-- With a conflict oracle that reports conflicts on the first `k`
attempts after `trial` and then stops, the loop performs exactly `k + 1`
attempts and commits. -/
theorem txnLoop_unbounded_aux :
    ∀ (k trial : Nat) (c : Nat → Bool),
      (∀ i, i < k → c (trial + i) = true) → c (trial + k) = false →
      ∃ out, txnLoop c (fun _ => []) ∅ (k + 1) trial initialSession =
          some out ∧
        out.raised = none ∧ out.attempts.length = k + 1
  | 0, trial, c, _, hlast =>
    ⟨_, txnLoop_base 0 hlast, rfl, rfl⟩
  | k + 1, trial, c, hconf, hlast => by
    obtain ⟨out, hout, h1, h2⟩ := txnLoop_unbounded_aux k (trial + 1) c
      (fun i hi => by
        have := hconf (i + 1) (by omega)
        rwa [show trial + (i + 1) = trial + 1 + i by omega] at this)
      (by rwa [show trial + (k + 1) = trial + 1 + k by omega] at hlast)
    have hc0 : c trial = true := by
      have := hconf 0 (by omega)
      simpa using this
    exact ⟨_, txnLoop_step hc0 hout, h1, by simp [h2]⟩

theorem Transaction.begin_commit_sets (t : Transaction)
    (h : t.commit_phase = false) :
    t.begin_commit = ({ t with commit_phase := true }, false, [Cmd.multi]) := by
  simp [Transaction.begin_commit, h]

/-! ### Decimal formatting round-trips -/

theorem digitChar_isDigit {d : Nat} (h : d < 10) :
    (digitChar d).isDigit = true := by
  interval_cases d <;> decide

theorem digitChar_val {d : Nat} (h : d < 10) :
    (digitChar d).toNat - 48 = d := by
  interval_cases d <;> decide

theorem natDigitsAux_all_digits :
    ∀ fuel n, (natDigitsAux fuel n).all Char.isDigit = true
  | 0, _ => rfl
  | fuel + 1, n => by
    unfold natDigitsAux
    split
    · rfl
    · rw [List.all_append, natDigitsAux_all_digits fuel (n / 10)]
      simp [digitChar_isDigit (Nat.mod_lt n (by omega))]

theorem digitsToNat_append (l : List Char) (c : Char) :
    digitsToNat (l ++ [c]) = digitsToNat l * 10 + (c.toNat - 48) := by
  simp [digitsToNat, List.foldl_append]

theorem natDigitsAux_value :
    ∀ fuel n, n ≤ fuel → digitsToNat (natDigitsAux fuel n) = n
  | 0, n, h => by
    have h0 : n = 0 := by omega
    subst h0
    rfl
  | fuel + 1, n, h => by
    unfold natDigitsAux
    split
    · next h0 => simp [digitsToNat, h0]
    · next h0 =>
      rw [digitsToNat_append,
        natDigitsAux_value fuel (n / 10) (by omega),
        digitChar_val (Nat.mod_lt n (by omega))]
      omega

theorem natDigitsAux_length :
    ∀ fuel n w, n ≤ fuel → n < 10 ^ w → (natDigitsAux fuel n).length ≤ w
  | 0, n, w, h, _ => by
    have h0 : n = 0 := by omega
    subst h0
    simp [natDigitsAux]
  | fuel + 1, n, w, h, hw => by
    unfold natDigitsAux
    split
    · simp
    · next h0 =>
      cases w with
      | zero =>
        rw [pow_zero] at hw
        omega
      | succ w2 =>
        rw [List.length_append]
        have hdiv : n / 10 < 10 ^ w2 := by
          rw [pow_succ] at hw
          exact (Nat.div_lt_iff_lt_mul (by omega)).mpr hw
        have := natDigitsAux_length fuel (n / 10) w2 (by omega) hdiv
        simp only [List.length_cons, List.length_nil]
        omega

theorem natToChars_ne_nil (n : Nat) : natToChars n ≠ [] := by
  unfold natToChars
  split
  · simp
  · next h =>
    cases n with
    | zero => exact absurd rfl h
    | succ m =>
      unfold natDigitsAux
      rw [if_neg h]
      simp

theorem natToChars_value (n : Nat) : digitsToNat (natToChars n) = n := by
  unfold natToChars
  split
  · next h => simp [digitsToNat, h]
  · exact natDigitsAux_value n n le_rfl

theorem natToChars_all_digits (n : Nat) :
    (natToChars n).all Char.isDigit = true := by
  unfold natToChars
  split
  · rfl
  · exact natDigitsAux_all_digits n n

theorem natToChars_length {n w : Nat} (hn : n < 10 ^ w) (hw : 1 ≤ w) :
    (natToChars n).length ≤ w := by
  unfold natToChars
  split
  · simpa using hw
  · exact natDigitsAux_length n n w le_rfl hn

theorem padNum_length {w n : Nat} (hn : n < 10 ^ w) (hw : 1 ≤ w) :
    (padNum w n).length = w := by
  unfold padNum
  rw [List.length_append, List.length_replicate]
  have := natToChars_length hn hw
  omega

theorem digitsToNat_replicate_zero (j : Nat) (l : List Char) :
    digitsToNat (List.replicate j '0' ++ l) = digitsToNat l := by
  induction j with
  | zero => rfl
  | succ k ih =>
    rw [List.replicate_succ, List.cons_append]
    have hstep : digitsToNat ('0' :: (List.replicate k '0' ++ l)) =
        digitsToNat (List.replicate k '0' ++ l) := by
      show List.foldl (fun a c => a * 10 + (c.toNat - 48))
          (0 * 10 + ('0'.toNat - 48)) (List.replicate k '0' ++ l) =
        List.foldl (fun a c => a * 10 + (c.toNat - 48)) 0
          (List.replicate k '0' ++ l)
      rw [show (0 * 10 + ('0'.toNat - 48) : Nat) = 0 from by decide]
    rw [hstep]
    exact ih

theorem padNum_value (w n : Nat) : digitsToNat (padNum w n) = n := by
  unfold padNum
  rw [digitsToNat_replicate_zero]
  exact natToChars_value n

theorem padNum_all_digits (w n : Nat) :
    (padNum w n).all Char.isDigit = true := by
  unfold padNum
  rw [List.all_append, natToChars_all_digits]
  rw [Bool.and_true, List.all_eq_true]
  intro x hx
  rw [List.eq_of_mem_replicate hx]
  decide

theorem takeDigits_pad {w n : Nat} (hn : n < 10 ^ w) (hw : 1 ≤ w)
    (rest : List Char) :
    takeDigits w (padNum w n ++ rest) = some (padNum w n, rest) := by
  unfold takeDigits
  rw [List.take_left' (padNum_length hn hw),
    List.drop_left' (padNum_length hn hw)]
  rw [if_pos ⟨padNum_length hn hw, padNum_all_digits w n⟩]

theorem takeDigits_pad2 {n : Nat} (hn : n < 100) (rest : List Char) :
    takeDigits 2 (padNum 2 n ++ rest) = some (padNum 2 n, rest) :=
  takeDigits_pad (lt_of_lt_of_le hn (by norm_num)) (by norm_num) rest

theorem takeDigits_pad2_exact {n : Nat} (hn : n < 100) :
    takeDigits 2 (padNum 2 n) = some (padNum 2 n, []) := by
  have := takeDigits_pad2 hn []
  rwa [List.append_nil] at this

theorem takeDigits_pad4 {n : Nat} (hn : n < 10000) (rest : List Char) :
    takeDigits 4 (padNum 4 n ++ rest) = some (padNum 4 n, rest) :=
  takeDigits_pad (lt_of_lt_of_le hn (by norm_num)) (by norm_num) rest

theorem takeDigits_pad6 {n : Nat} (hn : n < 1000000) (rest : List Char) :
    takeDigits 6 (padNum 6 n ++ rest) = some (padNum 6 n, rest) :=
  takeDigits_pad (lt_of_lt_of_le hn (by norm_num)) (by norm_num) rest

theorem expectChar_cons (c : Char) (l : List Char) :
    expectChar c (c :: l) = some l := by
  simp [expectChar]

theorem matchMicro_nil : matchMicro [] = (none, []) := rfl

theorem matchTzEnd_nil : matchTzEnd [] = some none := rfl

theorem matchMicro_pad {u : Nat} (hu : u < 1000000) :
    matchMicro ('.' :: padNum 6 u) = (some u, []) := by
  have h6 := takeDigits_pad6 hu []
  rw [List.append_nil] at h6
  simp only [matchMicro]
  rw [h6]
  simp [padNum_value]

/-! ### Scalar codec round-trip theorems

These substantiate the C7 verdict: the `Time` codec round-trips on its
whole accepted domain, the `Date` codec likewise, and the `DateTime`
codec round-trips exactly on the datetimes with a nonzero microsecond —
at `microsecond = 0` its decode raises `TypeError`. -/

theorem matchTimePattern_encode_nomicro {hq mq sq : Nat} (hh : hq < 100)
    (hm : mq < 100) (hs : sq < 100) :
    matchTimePattern (padNum 2 hq ++ [':'] ++ padNum 2 mq ++ [':'] ++
      padNum 2 sq) = some (hq, mq, sq, none, none) := by
  simp only [matchTimePattern, List.append_assoc, List.cons_append, List.nil_append,
    takeDigits_pad2 hh, expectChar_cons, takeDigits_pad2 hm,
    takeDigits_pad2_exact hs, matchMicro_nil, matchTzEnd_nil,
    padNum_value]

theorem matchTimePattern_encode_micro {hq mq sq u : Nat} (hh : hq < 100)
    (hm : mq < 100) (hs : sq < 100) (hu : u < 1000000) :
    matchTimePattern (padNum 2 hq ++ [':'] ++ padNum 2 mq ++ [':'] ++
      padNum 2 sq ++ ('.' :: padNum 6 u)) =
      some (hq, mq, sq, some u, none) := by
  simp only [matchTimePattern, List.append_assoc, List.cons_append, List.nil_append,
    takeDigits_pad2 hh, expectChar_cons, takeDigits_pad2 hm,
    takeDigits_pad2 hs, matchMicro_pad hu, matchTzEnd_nil, padNum_value]

/-- The `Time` codec round-trips on every in-range time, dropping only
the time zone. -/
theorem time_decode_encode (v : PyTime) (hh : v.hour < 24)
    (hm : v.minute < 60) (hs : v.second < 60)
    (hu : v.microsecond < 1000000) :
    Time.decode (Time.encode v) =
      .ok ⟨v.hour, v.minute, v.second, v.microsecond, none⟩ := by
  obtain ⟨h, m, s, u, tz⟩ := v
  dsimp only at hh hm hs hu ⊢
  unfold Time.decode Time.parse_time Time.encode isoformatTime
  dsimp only
  by_cases h0 : u = 0
  · rw [if_pos h0]
    rw [List.append_nil,
      matchTimePattern_encode_nomicro (by omega) (by omega) (by omega)]
    simp [h0]
  · rw [if_neg h0]
    rw [matchTimePattern_encode_micro (by omega) (by omega) (by omega) hu]
    simp

/-- The datetime pattern applied to an encoded datetime, with and
without the microsecond fraction. -/
theorem matchDateTimePattern_encode {y mo d hq mq sq : Nat}
    (hy : y < 10000) (hmo : mo < 100) (hd : d < 100) (hh : hq < 100)
    (hm : mq < 100) (hs : sq < 100) :
    ∀ (u : Nat), u < 1000000 →
    (matchDateTimePattern (padNum 4 y ++ ['-'] ++ padNum 2 mo ++ ['-'] ++
        padNum 2 d ++ ['T'] ++ (padNum 2 hq ++ [':'] ++ padNum 2 mq ++
        [':'] ++ padNum 2 sq)) = some (y, mo, d, hq, mq, sq, none, none)) ∧
    (matchDateTimePattern (padNum 4 y ++ ['-'] ++ padNum 2 mo ++ ['-'] ++
        padNum 2 d ++ ['T'] ++ (padNum 2 hq ++ [':'] ++ padNum 2 mq ++
        [':'] ++ padNum 2 sq ++ ('.' :: padNum 6 u))) =
      some (y, mo, d, hq, mq, sq, some u, none)) := by
  intro u hu
  constructor
  · simp only [matchDateTimePattern, List.append_assoc,
      List.cons_append, List.nil_append, takeDigits_pad4 hy, expectChar_cons,
      takeDigits_pad2 hmo, takeDigits_pad2 hd, takeDigits_pad2 hh,
      takeDigits_pad2 hm, takeDigits_pad2_exact hs, matchMicro_nil,
      matchTzEnd_nil, padNum_value]
  · simp only [matchDateTimePattern, List.append_assoc,
      List.cons_append, List.nil_append, takeDigits_pad4 hy, expectChar_cons,
      takeDigits_pad2 hmo, takeDigits_pad2 hd, takeDigits_pad2 hh,
      takeDigits_pad2 hm, takeDigits_pad2 hs, matchMicro_pad hu,
      matchTzEnd_nil, padNum_value]

/-- General form of the C7 bug: for every in-range datetime the
round trip through the `DateTime` codec yields the value back (time zone
dropped) when the microsecond is nonzero, and a `TypeError` when it is
zero. -/
theorem datetime_decode_encode (v : PyDateTime) (hy : v.year < 10000)
    (hmo : v.month < 100) (hd : v.day < 100) (hh : v.hour < 24)
    (hm : v.minute < 60) (hs : v.second < 60)
    (hu : v.microsecond < 1000000) :
    DateTime.decode (DateTime.encode v) =
      (if v.microsecond = 0 then .error Err.typeError
       else .ok ⟨v.year, v.month, v.day, v.hour, v.minute, v.second,
                 v.microsecond, none⟩) := by
  obtain ⟨y, mo, d, h, m, s, u, tz⟩ := v
  dsimp only at hy hmo hd hh hm hs hu ⊢
  unfold DateTime.decode DateTime.parse_datetime DateTime.encode
    isoformatDateTime isoformatTime
  dsimp only
  by_cases h0 : u = 0
  · rw [if_pos h0, if_pos h0, List.append_nil]
    rw [((matchDateTimePattern_encode hy hmo hd (by omega) (by omega)
      (by omega)) 0 (by omega)).1]
  · rw [if_neg h0, if_neg h0]
    rw [((matchDateTimePattern_encode hy hmo hd (by omega) (by omega)
      (by omega)) u hu).2]
    simp

/-- `Date` round-trips on every in-range date. -/
theorem date_decode_encode (v : PyDate) (hy : v.year < 10000)
    (hmo : v.month < 100) (hd : v.day < 100) :
    Date.decode (Date.encode v) = .ok v := by
  simp only [Date.decode, Date.encode, matchDatePattern,
    List.append_assoc, List.cons_append, List.nil_append, takeDigits_pad4 hy,
    expectChar_cons, takeDigits_pad2 hmo, takeDigits_pad2_exact hd,
    padNum_value]
  simp

theorem parseNatChars_natToChars (n : Nat) :
    parseNatChars (natToChars n) = .ok n := by
  unfold parseNatChars
  rw [if_pos ⟨natToChars_ne_nil n, natToChars_all_digits n⟩]
  rw [natToChars_value]

theorem natToChars_head_digit (n : Nat) :
    ∃ c cs, natToChars n = c :: cs ∧ c.isDigit = true := by
  cases hnc : natToChars n with
  | nil => exact absurd hnc (natToChars_ne_nil n)
  | cons c cs =>
    refine ⟨c, cs, rfl, ?_⟩
    have hall := natToChars_all_digits n
    rw [hnc, List.all_cons, Bool.and_eq_true] at hall
    exact hall.1

theorem isDigit_ne_sign {c : Char} (h : c.isDigit = true) :
    ¬ c = '-' ∧ ¬ c = '+' := by
  constructor <;> intro hc <;> subst hc <;> simp at h

/-- The `Integer` codec round-trips on every integer. -/
theorem integer_decode_encode (i : Int) :
    Integer.decode (Integer.encode i) = .ok i := by
  unfold Integer.decode Integer.encode intToChars
  by_cases hi : i < 0
  · rw [if_pos hi]
    simp only [parseIntChars]
    rw [if_pos trivial, parseNatChars_natToChars]
    show Except.ok (-(Int.ofNat (-i).toNat)) = Except.ok i
    congr 1
    simp only [Int.ofNat_eq_coe]
    omega
  · rw [if_neg hi]
    obtain ⟨c, cs, hcons, hc⟩ := natToChars_head_digit i.toNat
    rw [hcons]
    simp only [parseIntChars]
    rw [if_neg (isDigit_ne_sign hc).1, if_neg (isDigit_ne_sign hc).2]
    rw [← hcons, parseNatChars_natToChars]
    show Except.ok (Int.ofNat i.toNat) = Except.ok i
    congr 1
    simp only [Int.ofNat_eq_coe]
    omega

/-- The `Boolean` codec round-trips. -/
theorem boolean_decode_encode (b : Bool) :
    Boolean.decode (Boolean.encode b) = .ok b := by
  cases b <;> decide

/-! ## Claim theorems -/

/-- **C1**: `mark_query(keys)` is a no-op when no transaction is active;
with an active transaction before commit phase it adds `keys` to the
watch set; once the transaction is in commit phase it fails with
`CommitError` without touching anything; and the retry loop never turns
a `CommitError` into a retry — an attempt resolving with `CommitError`
is the loop's last attempt and the error propagates. -/
theorem mark_query_spec :
    (∀ (s : SessionState) (ks : Finset Key), s.txn = none →
      mark_query s ks = .ok (s, [])) ∧
    (∀ (s : SessionState) (t : Transaction) (ks : Finset Key),
      s.txn = some t → t.commit_phase = false →
      ∃ t1 cs, mark_query s ks = .ok ({ s with txn := some t1 }, cs) ∧
        t1.keys = t.keys ∪ ks) ∧
    (∀ (s : SessionState) (t : Transaction) (ks : Finset Key),
      s.txn = some t → t.commit_phase = true →
      mark_query s ks = .error Err.commitError) ∧
    (∀ (conflict : Nat → Bool) (blockOps : Nat → List BlockOp)
       (ks : Finset Key) (fuel trial : Nat) (s : SessionState)
       (a : AttemptResult),
      attempt (conflict trial) (blockOps trial) ks s = .ok a →
      a.err = some Err.commitError →
      txnLoop conflict blockOps ks (fuel + 1) trial s =
        some ⟨a.state, [(trial, some Err.commitError)],
              some Err.commitError, a.cmds⟩) := by
  refine ⟨?_, ?_, ?_, ?_⟩
  · intro s ks h
    simp [mark_query, h]
  · intro s t ks ht hc
    refine ⟨(t.watch ks false).1, (t.watch ks false).2, ?_,
      Transaction.watch_keys t ks⟩
    simp [mark_query, ht, hc]
  · intro s t ks ht hc
    simp [mark_query, ht, hc]
  · intro conflict blockOps ks fuel trial s a ha herr
    simp only [txnLoop, ha]
    rw [herr]
    simp

/-- Witness for C1: all four cases at concrete inputs. -/
theorem mark_query_spec_witness :
    mark_query initialSession {"k"} = .ok (initialSession, []) ∧
    (∃ t1 cs,
      mark_query ⟨1, some 0, some ⟨{"a"}, {"a"}, false, true⟩⟩ {"b"} =
        .ok ({ (⟨1, some 0, some ⟨{"a"}, {"a"}, false, true⟩⟩ :
                SessionState) with txn := some t1 }, cs) ∧
      t1.keys = ({"a"} : Finset Key) ∪ {"b"}) ∧
    mark_query ⟨1, some 0, some ⟨{"a"}, {"a"}, true, true⟩⟩ {"b"} =
      .error Err.commitError ∧
    txnLoop (fun _ => false) (fun _ => [BlockOp.raiseErr Err.commitError])
        ∅ 1 0 initialSession =
      some ⟨initialSession, [(0, some Err.commitError)],
            some Err.commitError, [Cmd.reset]⟩ :=
  ⟨mark_query_spec.1 initialSession {"k"} rfl,
   mark_query_spec.2.1 _ ⟨{"a"}, {"a"}, false, true⟩ _ rfl rfl,
   mark_query_spec.2.2.1 _ ⟨{"a"}, {"a"}, true, true⟩ _ rfl rfl,
   mark_query_spec.2.2.2 (fun _ => false)
     (fun _ => [BlockOp.raiseErr Err.commitError]) ∅ 0 0 initialSession
     ⟨initialSession, ⟨∅, ∅, false, false⟩, [Cmd.reset],
      some Err.commitError⟩ (by decide) rfl⟩

/-- **C2**: with an active transaction, `mark_manipulative(keys)` adds
`keys` to the watch set and — when the transaction was not yet in commit
phase — transitions it into commit phase (issuing `MULTI`); in either
case the transaction is in commit phase afterwards.  `begin_commit()`
called while already committing is an idempotent no-op whose only effect
is the emitted warning (the `true` flag); it cannot raise. -/
theorem mark_manipulative_spec :
    (∀ (s : SessionState) (t : Transaction) (ks : Finset Key),
      s.txn = some t → t.commit_phase = false →
      ∃ t2 cs, mark_manipulative s ks = ({ s with txn := some t2 }, cs) ∧
        t2.keys = t.keys ∪ ks ∧ t2.commit_phase = true ∧ Cmd.multi ∈ cs) ∧
    (∀ (s : SessionState) (t : Transaction) (ks : Finset Key),
      s.txn = some t → t.commit_phase = true →
      ∃ t2 cs, mark_manipulative s ks = ({ s with txn := some t2 }, cs) ∧
        t2.keys = t.keys ∪ ks ∧ t2.commit_phase = true) ∧
    (∀ t : Transaction, t.commit_phase = true →
      t.begin_commit = (t, true, [])) := by
  refine ⟨?_, ?_, ?_⟩
  · intro s t ks ht hc
    have hwf : (t.watch ks false).1.commit_phase = false :=
      (Transaction.watch_commit_phase t ks).trans hc
    refine ⟨(t.watch ks false).1.begin_commit.1,
      (t.watch ks false).2 ++ (t.watch ks false).1.begin_commit.2.2,
      ?_, ?_, ?_, ?_⟩
    · simp only [mark_manipulative, ht]
      rw [if_neg (by rw [hwf]; simp)]
    · rw [Transaction.begin_commit_sets _ hwf]
      exact Transaction.watch_keys t ks
    · rw [Transaction.begin_commit_sets _ hwf]
    · rw [Transaction.begin_commit_sets _ hwf]
      simp
  · intro s t ks ht hc
    have hwt : (t.watch ks false).1.commit_phase = true :=
      (Transaction.watch_commit_phase t ks).trans hc
    refine ⟨(t.watch ks false).1, (t.watch ks false).2, ?_,
      Transaction.watch_keys t ks, hwt⟩
    simp only [mark_manipulative, ht]
    rw [if_pos hwt]
  · intro t h
    simp [Transaction.begin_commit, h]

/-- Witness for C2 at concrete inputs. -/
theorem mark_manipulative_spec_witness :
    (∃ t2 cs,
      mark_manipulative ⟨1, some 0, some ⟨{"a"}, {"a"}, false, true⟩⟩
          {"b"} =
        ({ (⟨1, some 0, some ⟨{"a"}, {"a"}, false, true⟩⟩ :
            SessionState) with txn := some t2 }, cs) ∧
      t2.keys = ({"a"} : Finset Key) ∪ {"b"} ∧ t2.commit_phase = true ∧
      Cmd.multi ∈ cs) ∧
    (∃ t2 cs,
      mark_manipulative ⟨1, some 0, some ⟨{"a"}, {"a"}, true, true⟩⟩
          {"b"} =
        ({ (⟨1, some 0, some ⟨{"a"}, {"a"}, true, true⟩⟩ :
            SessionState) with txn := some t2 }, cs) ∧
      t2.keys = ({"a"} : Finset Key) ∪ {"b"} ∧ t2.commit_phase = true) ∧
    (⟨∅, ∅, true, false⟩ : Transaction).begin_commit =
      (⟨∅, ∅, true, false⟩, true, []) :=
  ⟨mark_manipulative_spec.1 _ ⟨{"a"}, {"a"}, false, true⟩ _ rfl rfl,
   mark_manipulative_spec.2.1 _ ⟨{"a"}, {"a"}, true, true⟩ _ rfl rfl,
   mark_manipulative_spec.2.2 _ rfl⟩

/-- **C3**: a terminating run of the retry loop executes the block at
trial indices `0, 1, 2, …` in order; every attempt except the last
resolves in a conflict (the loop repeats exactly on conflicts and stops
at the first non-conflicting attempt); the conflict signal never reaches
the caller; any other exception ends the loop immediately and is what
the caller sees.  Moreover the trial count is unbounded: for every `n`
there is a conflict pattern making the loop commit on trial `n`. -/
theorem transaction_retry_loop_spec :
    (∀ (conflict : Nat → Bool) (blockOps : Nat → List BlockOp)
       (ks : Finset Key) (fuel : Nat) (s : SessionState) (out : TxRun),
      s.txn = none →
      session_transaction conflict blockOps ks false fuel s = some out →
      out.attempts.map Prod.fst = List.range out.attempts.length ∧
      out.raised ≠ some Err.conflictError ∧
      (∀ p ∈ out.attempts.dropLast, p.2 = some Err.conflictError) ∧
      (∃ q, out.attempts.getLast? = some q ∧ q.2 = out.raised)) ∧
    (∀ n : Nat, ∃ (conflict : Nat → Bool) (fuel : Nat) (out : TxRun),
      session_transaction conflict (fun _ => []) ∅ false fuel
          initialSession = some out ∧
      out.raised = none ∧ out.attempts.length = n + 1) := by
  constructor
  · intro conflict blockOps ks fuel s out h hrun
    have hloop : txnLoop conflict blockOps ks fuel 0 s = some out := by
      simpa [session_transaction, h] using hrun
    have hshape := txnLoop_shape conflict blockOps ks fuel 0 s out h hloop
    rw [List.range_eq_range']
    exact hshape
  · intro n
    obtain ⟨out, hout, h1, h2⟩ := txnLoop_unbounded_aux n 0
      (fun t => decide (t < 0 + n))
      (fun i hi => by simp only [decide_eq_true_eq]; omega)
      (by simp)
    exact ⟨_, n + 1, out, by simpa [session_transaction] using hout, h1, h2⟩

/-- Witness for C3: a two-conflict run committing on trial 2, and the
shape facts for a one-attempt run. -/
theorem transaction_retry_loop_spec_witness :
    (([((0 : Nat), (none : Option Err))].map Prod.fst =
        List.range [((0 : Nat), (none : Option Err))].length ∧
      (none : Option Err) ≠ some Err.conflictError ∧
      (∀ p ∈ [((0 : Nat), (none : Option Err))].dropLast,
        p.2 = some Err.conflictError) ∧
      (∃ q, [((0 : Nat), (none : Option Err))].getLast? = some q ∧
        q.2 = (none : Option Err))) ∧
    (∃ (conflict : Nat → Bool) (fuel : Nat) (out : TxRun),
      session_transaction conflict (fun _ => []) ∅ false fuel
          initialSession = some out ∧
      out.raised = none ∧ out.attempts.length = 2 + 1)) := by
  constructor
  · exact transaction_retry_loop_spec.1 (fun _ => false) (fun _ => []) ∅ 1
      initialSession ⟨initialSession, [(0, none)], none, [Cmd.execute]⟩
      rfl (by decide)
  · exact transaction_retry_loop_spec.2 2

/-- **C4**: however a transaction attempt's scope exits — committed,
conflicted, or aborted by any exception the block raised — the session's
client handle is restored to its pre-transaction value, the
current-transaction slot is cleared, the saved handle slot is deleted,
and the transaction object's commit-phase and entered flags are reset. -/
theorem transaction_cleanup_spec :
    ∀ (conflict : Bool) (ops : List BlockOp) (ks : Finset Key)
      (s : SessionState), s.txn = none →
      ∃ a, attempt conflict ops ks s = .ok a ∧
        a.state.client = s.client ∧ a.state.txn = none ∧
        a.state.original_client = none ∧
        a.txnObj.commit_phase = false ∧ a.txnObj.entered = false := by
  intro conflict ops ks s h
  obtain ⟨a, ha, hst, h1, h2⟩ := attempt_ok_shape conflict ops ks s h
  exact ⟨a, ha, by rw [hst], by rw [hst], by rw [hst], h1, h2⟩

/-- Witness for C4: an attempt whose block writes and then raises. -/
theorem transaction_cleanup_spec_witness :
    ∃ a, attempt true [BlockOp.query {"k"}, BlockOp.manip {"k"},
        BlockOp.raiseErr (Err.other 7)] {"k"} initialSession = .ok a ∧
      a.state.client = initialSession.client ∧ a.state.txn = none ∧
      a.state.original_client = none ∧
      a.txnObj.commit_phase = false ∧ a.txnObj.entered = false :=
  transaction_cleanup_spec true _ _ initialSession rfl

/-- **C5**: a non-initializing `watch(more_keys)` makes the watch set the
union of the old set and `more_keys` (so the set never shrinks within an
attempt), and the backend `WATCH` is issued exactly for the keys of
`more_keys` that were not already watched — and not at all when there
are none. -/
theorem watch_spec :
    ∀ (t : Transaction) (ks : Finset Key),
      (t.watch ks false).1.keys = t.keys ∪ ks ∧
      t.keys ⊆ (t.watch ks false).1.keys ∧
      (t.watch ks false).2 =
        (if ks \ t.keys = ∅ then [] else [Cmd.watch (ks \ t.keys)]) := by
  intro t ks
  refine ⟨Transaction.watch_keys t ks, ?_, rfl⟩
  rw [Transaction.watch_keys]
  exact Finset.subset_union_left

/-- **C6**: starting a transaction while one is already active fails with
`DoubleTransactionError` before any backend command is issued and without
running the block (both through `Session.transaction` and through
`Transaction.__enter__`); with `ignore_double=True` the active
transaction absorbs the extra keys into its watch set and the block runs
inline exactly once at trial index `0`, with no retry and its outcome
passed straight through. -/
theorem double_transaction_spec :
    (∀ (conflict : Nat → Bool) (blockOps : Nat → List BlockOp)
       (ks : Finset Key) (fuel : Nat) (s : SessionState) (t : Transaction),
      s.txn = some t →
      session_transaction conflict blockOps ks false fuel s =
        some ⟨s, [], some Err.doubleTransactionError, []⟩) ∧
    (∀ (s : SessionState) (ks : Finset Key) (t : Transaction),
      s.txn = some t →
      txnEnter s ks = .error Err.doubleTransactionError) ∧
    (∀ (conflict : Nat → Bool) (blockOps : Nat → List BlockOp)
       (ks : Finset Key) (fuel : Nat) (s : SessionState) (t : Transaction),
      s.txn = some t →
      ∃ out, session_transaction conflict blockOps ks true fuel s =
          some out ∧
        out.attempts = [(0, out.raised)] ∧
        (∃ t2, out.state.txn = some t2 ∧ t.keys ∪ ks ⊆ t2.keys)) := by
  refine ⟨?_, ?_, ?_⟩
  · intro conflict blockOps ks fuel s t ht
    simp [session_transaction, ht]
  · intro s ks t ht
    simp [txnEnter, ht]
  · intro conflict blockOps ks fuel s t ht
    simp only [session_transaction, ht]
    rw [if_neg (by simp)]
    refine ⟨_, rfl, rfl, ?_⟩
    obtain ⟨t2, htxn, hsub⟩ := runOps_keys_mono (blockOps 0)
      { s with txn := some (t.watch ks false).1 } (t.watch ks false).1 rfl
    refine ⟨t2, htxn, ?_⟩
    rw [← Transaction.watch_keys t ks]
    exact hsub

/-- Witness for C6 at concrete inputs. -/
theorem double_transaction_spec_witness :
    session_transaction (fun _ => false) (fun _ => []) {"b"} false 1
        ⟨1, some 0, some ⟨{"a"}, {"a"}, false, true⟩⟩ =
      some ⟨⟨1, some 0, some ⟨{"a"}, {"a"}, false, true⟩⟩, [],
            some Err.doubleTransactionError, []⟩ ∧
    txnEnter ⟨1, some 0, some ⟨{"a"}, {"a"}, false, true⟩⟩ {"b"} =
      .error Err.doubleTransactionError ∧
    (∃ out,
      session_transaction (fun _ => false)
          (fun _ => [BlockOp.query {"c"}]) {"b"} true 1
          ⟨1, some 0, some ⟨{"a"}, {"a"}, false, true⟩⟩ = some out ∧
      out.attempts = [(0, out.raised)] ∧
      (∃ t2, out.state.txn = some t2 ∧
        (⟨{"a"}, {"a"}, false, true⟩ : Transaction).keys ∪ {"b"} ⊆
          t2.keys)) :=
  ⟨double_transaction_spec.1 (fun _ => false) (fun _ => []) {"b"} 1 _
     ⟨{"a"}, {"a"}, false, true⟩ rfl,
   double_transaction_spec.2.1 _ {"b"} ⟨{"a"}, {"a"}, false, true⟩ rfl,
   double_transaction_spec.2.2 (fun _ => false)
     (fun _ => [BlockOp.query {"c"}]) {"b"} 1 _
     ⟨{"a"}, {"a"}, false, true⟩ rfl⟩

/-- **C7** (code bug): the scalar-codec round trip fails for the naive
`DateTime` codec exactly when `microsecond == 0`: `isoformat()` omits
the fraction, `DATETIME_PATTERN`'s optional microsecond group does not
participate in the match, and `parse_datetime` runs
`int(match.group('microsecond'))` = `int(None)`, a `TypeError` — unlike
`Time.parse_time`, which guards the missing group and round-trips the
same instant.  (With a nonzero microsecond the datetime codec does round
trip.) -/
theorem datetime_roundtrip_bug :
    DateTime.encode ⟨2012, 3, 28, 9, 21, 34, 0, none⟩ =
      "2012-03-28T09:21:34".toList ∧
    DateTime.decode "2012-03-28T09:21:34".toList = .error Err.typeError ∧
    DateTime.decode (DateTime.encode ⟨2012, 3, 28, 9, 21, 34, 638972, none⟩)
      = .ok ⟨2012, 3, 28, 9, 21, 34, 638972, none⟩ ∧
    Time.encode ⟨9, 21, 34, 0, none⟩ = "09:21:34".toList ∧
    Time.decode "09:21:34".toList = .ok ⟨9, 21, 34, 0, none⟩ := by
  decide

/-- **C8**: each container `save_value` clears the key and rewrites it,
so the stored content depends only on the saved value (replacement, not
merge), saving the same content twice leaves the store exactly as one
save does, and — for the containers whose write path branches on the
server version — the batched and the looped write paths produce the same
store. -/
theorem save_value_idempotent_spec :
    (∀ (α β : Type) (eK : α → Bulk) (eV : β → Bulk) (st : HStore)
       (key : Key) (v : List (α × β)),
      hashSaveValue eK eV (hashSaveValue eK eV st key v) key v =
        hashSaveValue eK eV st key v ∧
      (∀ st' : HStore, hashSaveValue eK eV st key v key =
        hashSaveValue eK eV st' key v key)) ∧
    (∀ (α : Type) (b : Bool) (enc : α → Bulk) (st : LStore) (key : Key)
       (v : List α),
      listSaveValue b enc (listSaveValue b enc st key v) key v =
        listSaveValue b enc st key v ∧
      (∀ st' : LStore, listSaveValue b enc st key v key =
        listSaveValue b enc st' key v key)) ∧
    (∀ (α : Type) (b : Bool) (enc : α → Bulk) (st : SStore) (key : Key)
       (v : List α),
      setSaveValue b enc (setSaveValue b enc st key v) key v =
        setSaveValue b enc st key v ∧
      (∀ st' : SStore, setSaveValue b enc st key v key =
        setSaveValue b enc st' key v key)) ∧
    (∀ (α : Type) (b : Bool) (enc : α → Bulk) (st : ZStore) (key : Key)
       (v : List (α × Int)),
      sortedSetSaveValue b enc (sortedSetSaveValue b enc st key v) key v =
        sortedSetSaveValue b enc st key v ∧
      (∀ st' : ZStore, sortedSetSaveValue b enc st key v key =
        sortedSetSaveValue b enc st' key v key)) ∧
    (∀ (α : Type) (b1 b2 : Bool) (enc : α → Bulk) (st : LStore)
       (key : Key) (v : List α),
      listSaveValue b1 enc st key v = listSaveValue b2 enc st key v) ∧
    (∀ (α : Type) (b1 b2 : Bool) (enc : α → Bulk) (st : SStore)
       (key : Key) (v : List α),
      setSaveValue b1 enc st key v = setSaveValue b2 enc st key v) ∧
    (∀ (α : Type) (b1 b2 : Bool) (enc : α → Bulk) (st : ZStore)
       (key : Key) (v : List (α × Int)),
      sortedSetSaveValue b1 enc st key v =
        sortedSetSaveValue b2 enc st key v) := by
  have hext : ∀ (α : Type) (enc : α → Bulk) (l : List Bulk) (v : List α),
      v.foldl (fun acc x => acc ++ [enc x]) l = l ++ v.map enc := by
    intro α enc l v
    induction v generalizing l with
    | nil => simp
    | cons x xs ih => simp [ih]
  refine ⟨?_, ?_, ?_, ?_, ?_, ?_, ?_⟩
  · intro α β eK eV st key v
    unfold hashSaveValue
    constructor
    · split <;> simp [Function.update_idem]
    · intro st'
      split <;> simp
  · intro α b enc st key v
    unfold listSaveValue
    exact ⟨Function.update_idem .., by intro st'; simp⟩
  · intro α b enc st key v
    unfold setSaveValue
    exact ⟨Function.update_idem .., by intro st'; simp⟩
  · intro α b enc st key v
    unfold sortedSetSaveValue
    constructor
    · split <;> simp [Function.update_idem]
    · intro st'
      split <;> simp
  · intro α b1 b2 enc st key v
    unfold listSaveValue list_raw_extend
    cases b1 <;> cases b2 <;> simp [hext]
  · intro α b1 b2 enc st key v
    unfold setSaveValue set_raw_update
    cases b1 <;> cases b2 <;> simp
  · intro α b1 b2 enc st key v
    unfold sortedSetSaveValue
    cases b1 <;> cases b2 <;> simp

/-- **C9** (counterexample): with state `{x: 1}`, a second `add(x)`
does increment the score to `{x: 2}`, and `pop()` does return the
lowest-scoring member — but it does *not* remove it: the member's score
is merely decremented by the default 1, leaving `{x: 1}`. -/
theorem sortedset_pop_counterexample :
    sortedset_add [(['x'], 1)] ['x'] 1 = [(['x'], 2)] ∧
    sortedset_pop (sortedset_add [(['x'], 1)] ['x'] 1) =
      .ok (['x'], [(['x'], 1)]) ∧
    ¬ zscore [(['x'], 1)] ['x'] = none := by
  decide

/-- **C9** (amended): `add(x)` on `{x: 1}` increments to `{x: 2}`;
`pop()` with no arguments returns the lowest-scoring member after
decrementing its score by the default 1, removing the member only when
the decremented score reaches the default removal threshold 0 — so from
`{x: 2}` it returns `x` leaving `{x: 1}`, and from `{x: 1}` it returns
`x` and removes it. -/
theorem sortedset_pop_amended :
    sortedset_add [(['x'], 1)] ['x'] 1 = [(['x'], 2)] ∧
    sortedset_pop [(['x'], 2)] = .ok (['x'], [(['x'], 1)]) ∧
    sortedset_pop [(['x'], 1)] = .ok (['x'], []) := by
  decide

/-- **C10**: the membership tests of `Set` and `SortedSet` convert a
`TypeError` from the member's encoding into `False`, and consequently
never propagate a type-mismatch error for any member. -/
theorem contains_total_spec :
    (∀ (α : Type) (enc : α → Except Err Bulk) (s : List Bulk) (m : α),
      enc m = .error Err.typeError → set_contains enc s m = .ok false) ∧
    (∀ (α : Type) (enc : α → Except Err Bulk) (z : List (Bulk × Int))
       (m : α),
      enc m = .error Err.typeError →
        sortedset_contains enc z m = .ok false) ∧
    (∀ (α : Type) (enc : α → Except Err Bulk) (s : List Bulk) (m : α),
      set_contains enc s m ≠ .error Err.typeError) ∧
    (∀ (α : Type) (enc : α → Except Err Bulk) (z : List (Bulk × Int))
       (m : α),
      sortedset_contains enc z m ≠ .error Err.typeError) := by
  refine ⟨?_, ?_, ?_, ?_⟩
  · intro α enc s m h
    simp [set_contains, h]
  · intro α enc z m h
    simp [sortedset_contains, h]
  · intro α enc s m
    unfold set_contains
    cases he : enc m with
    | ok data => simp
    | error e => cases e <;> simp
  · intro α enc z m
    unfold sortedset_contains
    cases he : enc m with
    | ok data => simp
    | error e => cases e <;> simp

/-- Witness for C10: a byte-string set refuses neither an integer nor
`None` as a membership probe — both come back `False`. -/
theorem contains_total_spec_witness :
    set_contains ByteString.encode [['a']] (PyVal.int 3) = .ok false ∧
    sortedset_contains ByteString.encode [(['a'], 1)] PyVal.pynone =
      .ok false :=
  ⟨contains_total_spec.1 PyVal ByteString.encode [['a']] (PyVal.int 3)
     rfl,
   contains_total_spec.2.1 PyVal ByteString.encode [(['a'], 1)]
     PyVal.pynone rfl⟩

end Sider
